import Mathlib

/-
Verification development for `trufflehub` (src/trufflehub.py), a GitHub
secret-scanning orchestrator.  The Python source is shallowly embedded:
strings are modelled as lists of characters (`Str`), Python dicts as
association lists with Python's assignment semantics (replace in place,
else append), the network and the JSON decoder as explicit oracle
functions, and the filesystem as an association list from file names to
contents.  Every definition is translated from the source file; the
relevant source lines are cited next to each definition.
-/

namespace Trufflehub

/-- Strings are modelled as lists of characters so that every operation is
structurally recursive and evaluable. -/
abbrev Str := List Char

/-- Coerce a Lean string literal to the character-list model. -/
def str (s : String) : Str := s.data

/-- ASCII lower-casing of one character, embedding Python's `str.lower`
on the ASCII range (the only range the marker patterns live in). -/
def lowerChar (c : Char) : Char :=
  if 'A' ≤ c ∧ c ≤ 'Z' then Char.ofNat (c.toNat + 32) else c

/-- Embeds Python `s.lower()`. -/
def lowerStr (s : Str) : Str := s.map lowerChar

/-- `charsStartWith p l` holds when `p` is an initial segment of `l`. -/
def charsStartWith : Str → Str → Bool
  | [], _ => true
  | _ :: _, [] => false
  | p :: ps, c :: cs => p == c && charsStartWith ps cs

/-- `charsContain pat l` holds when `pat` occurs contiguously inside `l`;
this embeds `re.search(pattern, text)` for the literal (metacharacter-free)
patterns of `IGNORED_PATTERNS`. -/
def charsContain (pat : Str) : Str → Bool
  | [] => charsStartWith pat []
  | c :: cs => charsStartWith pat (c :: cs) || charsContain pat cs

/-- The marker patterns of src/trufflehub.py lines 35-51.  Each is a
regex with no metacharacters, i.e. a literal substring. -/
def IGNORED_PATTERNS : List Str :=
  [str "example", str "demo", str "test", str "tests", str "testing",
   str "sample", str "samples", str "mock", str "fixture", str "playground",
   str "tutorial", str "skeleton", str "template", str "stub", str "dummy"]

/-- Embeds `should_label_as_medium` (src/trufflehub.py lines 55-72) at the
level of the two extracted fields `file` and `repository` (the JSON field
extraction is the parse oracle's job, see `Finding`): both inputs are
lower-cased, joined with a single space, and searched for each pattern.
The `re.IGNORECASE` flag is redundant in the source because the text is
already lower-cased and the patterns are lower-case literals. -/
def should_label_as_medium (file repository : Str) : Bool :=
  let file_path := lowerStr file
  let repo := lowerStr repository
  let combined_text := file_path ++ [' '] ++ repo
  IGNORED_PATTERNS.any fun pat => charsContain pat combined_text

/-- The two severity buckets of the classification policy. -/
inductive Severity where
  | critical
  | medium
deriving DecidableEq, Repr

/-- The classification decision of the scan loop (src/trufflehub.py lines
325-329): a finding labelled medium goes to the medium bucket, every other
finding to the critical bucket. -/
def classifyFinding (file repository : Str) : Severity :=
  if should_label_as_medium file repository then Severity.medium else Severity.critical

/- Lemmas about substring search. -/

theorem charsStartWith_contain {pat l : Str} (h : charsStartWith pat l = true) :
    charsContain pat l = true := by
  cases l with
  | nil => simpa [charsContain] using h
  | cons c cs => simp [charsContain, h]

theorem charsStartWith_append {pat : Str} (z : Str) :
    ∀ {l : Str}, charsStartWith pat l = true → charsStartWith pat (l ++ z) = true := by
  induction pat with
  | nil => intro l _; simp [charsStartWith]
  | cons p ps ih =>
    intro l h
    cases l with
    | nil => simp [charsStartWith] at h
    | cons c cs =>
      simp only [charsStartWith, Bool.and_eq_true] at h ⊢
      exact ⟨h.1, ih h.2⟩

theorem charsContain_append_right {pat a : Str} (z : Str)
    (h : charsContain pat a = true) : charsContain pat (a ++ z) = true := by
  induction a with
  | nil =>
    simp only [charsContain] at h
    simpa using charsStartWith_contain (charsStartWith_append z h)
  | cons c cs ih =>
    simp only [charsContain, Bool.or_eq_true] at h ⊢
    cases h with
    | inl h => exact Or.inl (charsStartWith_append z h)
    | inr h => exact Or.inr (ih h)

theorem charsContain_append_left {pat b : Str} (z : Str)
    (h : charsContain pat b = true) : charsContain pat (z ++ b) = true := by
  induction z with
  | nil => simpa using h
  | cons c cs ih =>
    simp only [List.cons_append, charsContain, Bool.or_eq_true]
    exact Or.inr ih

theorem charsStartWith_of_sep {sep : Char} :
    ∀ {pat x : Str} {y : Str}, sep ∉ pat →
      charsStartWith pat (x ++ sep :: y) = true → charsStartWith pat x = true := by
  intro pat
  induction pat with
  | nil => intro x y _ _; simp [charsStartWith]
  | cons p ps ih =>
    intro x y hsep h
    cases x with
    | nil =>
      simp only [List.nil_append, charsStartWith, Bool.and_eq_true, beq_iff_eq] at h
      exact absurd (h.1 ▸ List.mem_cons_self p ps) hsep
    | cons c cs =>
      simp only [List.cons_append, charsStartWith, Bool.and_eq_true] at h ⊢
      exact ⟨h.1, ih (fun hm => hsep (List.mem_cons_of_mem p hm)) h.2⟩

/-- A pattern not containing the separator occurs in `a ++ sep :: b`
exactly when it occurs in `a` or occurs in `b`. -/
theorem charsContain_sep_split {sep : Char} {pat : Str} (hsep : sep ∉ pat) :
    ∀ (a b : Str), charsContain pat (a ++ sep :: b) = true ↔
      (charsContain pat a = true ∨ charsContain pat b = true) := by
  intro a b
  constructor
  · induction a with
    | nil =>
      intro h
      simp only [List.nil_append, charsContain, Bool.or_eq_true] at h
      cases h with
      | inl h =>
        cases pat with
        | nil => exact Or.inl (by simp [charsContain, charsStartWith])
        | cons p ps =>
          simp only [charsStartWith, Bool.and_eq_true, beq_iff_eq] at h
          exact absurd (h.1 ▸ List.mem_cons_self p ps) hsep
      | inr h => exact Or.inr h
    | cons c cs ih =>
      intro h
      simp only [List.cons_append, charsContain, Bool.or_eq_true] at h
      cases h with
      | inl h =>
        exact Or.inl (charsStartWith_contain (charsStartWith_of_sep hsep h))
      | inr h =>
        cases ih h with
        | inl h2 => exact Or.inl (charsContain_append_left [c] h2)
        | inr h2 => exact Or.inr h2
  · intro h
    cases h with
    | inl h => exact charsContain_append_right (sep :: b) h
    | inr h =>
      have := charsContain_append_left (b := b) (a ++ [sep]) h
      simpa using this

theorem no_space_in_patterns : ∀ pat ∈ IGNORED_PATTERNS, (' ' : Char) ∉ pat := by
  decide

/-- Claim C2: the classifier returns `medium` exactly when some fixed marker
term occurs as a case-insensitive substring of the finding's file path or
repository name, and `critical` exactly when no marker occurs. -/
theorem classify_marker_iff (file repository : Str) :
    (classifyFinding file repository = Severity.medium ↔
      ∃ pat ∈ IGNORED_PATTERNS,
        charsContain pat (lowerStr file) = true ∨
        charsContain pat (lowerStr repository) = true)
    ∧ (classifyFinding file repository = Severity.critical ↔
      ¬ ∃ pat ∈ IGNORED_PATTERNS,
        charsContain pat (lowerStr file) = true ∨
        charsContain pat (lowerStr repository) = true) := by
  have key : should_label_as_medium file repository = true ↔
      ∃ pat ∈ IGNORED_PATTERNS,
        charsContain pat (lowerStr file) = true ∨
        charsContain pat (lowerStr repository) = true := by
    simp only [should_label_as_medium, List.any_eq_true]
    constructor
    · rintro ⟨pat, hmem, hc⟩
      refine ⟨pat, hmem, ?_⟩
      have hsep := no_space_in_patterns pat hmem
      have := (charsContain_sep_split hsep (lowerStr file) (lowerStr repository)).mp
        (by simpa using hc)
      exact this
    · rintro ⟨pat, hmem, hc⟩
      refine ⟨pat, hmem, ?_⟩
      have hsep := no_space_in_patterns pat hmem
      have := (charsContain_sep_split hsep (lowerStr file) (lowerStr repository)).mpr hc
      simpa using this
  constructor
  · constructor
    · intro h
      by_cases hm : should_label_as_medium file repository = true
      · exact key.mp hm
      · simp [classifyFinding, hm] at h
    · intro h
      simp [classifyFinding, key.mpr h]
  · constructor
    · intro h hex
      have := key.mpr hex
      simp [classifyFinding, this] at h
    · intro h
      have hm : should_label_as_medium file repository ≠ true := fun hc => h (key.mp hc)
      simp [classifyFinding, hm]

/-- A decoded finding, reduced to the two fields `should_label_as_medium`
reads (`SourceMetadata.Data.Git.file` and `.repository`, defaulting to `""`
when absent).  The JSON decoder (`json.loads` plus field extraction) is an
external library, modelled as an oracle `Str → Option Finding`; `none`
stands for a line that raises `json.JSONDecodeError`. -/
structure Finding where
  file : Str
  repository : Str
deriving DecidableEq, Repr

/-- The per-line destination of the scan loop (src/trufflehub.py lines
322-331) as a predicate: a line belongs to the critical bucket when it fails
to decode or decodes to a finding not labelled medium. -/
def critLine (parse : Str → Option Finding) (line : Str) : Bool :=
  match parse line with
  | none => true
  | some f => !should_label_as_medium f.file f.repository

/-- Counterpart of `critLine`: a line belongs to the medium bucket when it
decodes and is labelled medium. -/
def medLine (parse : Str → Option Finding) (line : Str) : Bool :=
  match parse line with
  | none => false
  | some f => should_label_as_medium f.file f.repository

/-- Embeds the finding loop of `scan_with_trufflehog` (src/trufflehub.py
lines 322-331): each output line is decoded independently; a decoded line
labelled medium is appended to `medium_findings`, any other decoded line to
`critical_findings`, and a line raising `json.JSONDecodeError` is appended
to `critical_findings`.  Returns the two buckets in line order. -/
def bucketize (parse : Str → Option Finding) : List Str → List Str × List Str
  | [] => ([], [])
  | line :: rest =>
    let r := bucketize parse rest
    match parse line with
    | some f =>
      if should_label_as_medium f.file f.repository then (r.1, line :: r.2)
      else (line :: r.1, r.2)
    | none => (line :: r.1, r.2)

theorem bucketize_eq_filter (parse : Str → Option Finding) (lines : List Str) :
    bucketize parse lines =
      (lines.filter (critLine parse), lines.filter (medLine parse)) := by
  induction lines with
  | nil => rfl
  | cons line rest ih =>
    simp only [bucketize, ih]
    cases hp : parse line with
    | none => simp [List.filter_cons, critLine, medLine, hp]
    | some f =>
      by_cases hm : should_label_as_medium f.file f.repository = true
      · simp [List.filter_cons, critLine, medLine, hp, hm]
      · simp [List.filter_cons, critLine, medLine, hp, hm]

/-- Claim C3: every scanner output line that fails JSON decoding is placed
in the critical bucket — never dropped and never placed in the medium
bucket — so the critical count includes every undecodable line. -/
theorem undecodable_lines_go_critical (parse : Str → Option Finding) (lines : List Str) :
    (∀ line ∈ lines, parse line = none →
        line ∈ (bucketize parse lines).1 ∧ line ∉ (bucketize parse lines).2)
    ∧ lines.countP (fun l => (parse l).isNone) ≤ (bucketize parse lines).1.length := by
  rw [bucketize_eq_filter]
  constructor
  · intro line hmem hnone
    constructor
    · exact List.mem_filter.mpr ⟨hmem, by simp [critLine, hnone]⟩
    · intro hin
      have h2 := (List.mem_filter.mp hin).2
      simp [medLine, hnone] at h2
  · have hmono : lines.countP (fun l => (parse l).isNone) ≤ lines.countP (critLine parse) := by
      apply List.countP_mono_left
      intro a _ h
      simp only [Option.isNone_iff_eq_none] at h
      simp [critLine, h]
    simpa [List.countP_eq_length_filter] using hmono

/-- The four boolean attributes kept per repository, embedding the dicts
built at src/trufflehub.py lines 144-149, 205-219 and 274-288.  The Python
key `"private"` is spelled `priv` (`private` is a Lean keyword). -/
structure Metadata where
  fork : Bool
  priv : Bool
  archived : Bool
  disabled : Bool
deriving DecidableEq, Repr

/-- The keys of an association list modelling a Python dict. -/
def dictKeys {α : Type} (m : List (Str × α)) : List Str := m.map Prod.fst

/-- Python dict assignment `m[k] = v`: when the key is present its value is
replaced in place (iteration order preserved), otherwise the pair is
appended. -/
def dictInsert {α : Type} (m : List (Str × α)) (k : Str) (v : α) : List (Str × α) :=
  if k ∈ dictKeys m then
    m.map fun kv => if kv.1 = k then (k, v) else kv
  else m ++ [(k, v)]

/-- Python dict lookup `m[k]` / `k in m`. -/
def dictFind {α : Type} (m : List (Str × α)) (k : Str) : Option α :=
  match m with
  | [] => none
  | kv :: rest => if kv.1 = k then some kv.2 else dictFind rest k

/-- A run of Python dict assignments in order, starting from `{}`: embeds
both the accumulation `all_repos[info["url"]] = info` over the discovery
sources (src/trufflehub.py lines 402-439) and the cache pre-population
`REPO_METADATA_CACHE[clone_url] = {...}` (lines 214-219, 283-288). -/
def buildDict {α : Type} (inserts : List (Str × α)) : List (Str × α) :=
  inserts.foldl (fun m kv => dictInsert m kv.1 kv.2) []

theorem dictKeys_map_replace {α : Type} (m : List (Str × α)) (k : Str) (v : α) :
    dictKeys (m.map fun kv => if kv.1 = k then (k, v) else kv) = dictKeys m := by
  induction m with
  | nil => rfl
  | cons kv rest ih =>
    by_cases h1 : kv.1 = k
    · simp only [dictKeys, List.map_cons, if_pos h1] at ih ⊢
      rw [ih, h1]
    · simp only [dictKeys, List.map_cons, if_neg h1] at ih ⊢
      rw [ih]

theorem dictKeys_dictInsert {α : Type} (m : List (Str × α)) (k : Str) (v : α) :
    dictKeys (dictInsert m k v) =
      if k ∈ dictKeys m then dictKeys m else dictKeys m ++ [k] := by
  by_cases hk : k ∈ dictKeys m
  · rw [dictInsert, if_pos hk, if_pos hk, dictKeys_map_replace]
  · rw [dictInsert, if_neg hk, if_neg hk]
    simp only [dictKeys, List.map_append, List.map_cons, List.map_nil]

theorem mem_dictKeys_dictInsert {α : Type} (m : List (Str × α)) (k u : Str) (v : α) :
    u ∈ dictKeys (dictInsert m k v) ↔ u ∈ dictKeys m ∨ u = k := by
  rw [dictKeys_dictInsert]
  by_cases hk : k ∈ dictKeys m
  · rw [if_pos hk]
    constructor
    · exact Or.inl
    · rintro (h | rfl)
      · exact h
      · exact hk
  · rw [if_neg hk]
    simp only [List.mem_append, List.mem_singleton]

theorem dictKeys_nodup_dictInsert {α : Type} {m : List (Str × α)} (k : Str) (v : α)
    (h : (dictKeys m).Nodup) : (dictKeys (dictInsert m k v)).Nodup := by
  rw [dictKeys_dictInsert]
  by_cases hk : k ∈ dictKeys m
  · rw [if_pos hk]; exact h
  · rw [if_neg hk]
    simp [List.nodup_append, hk, h]

theorem buildDict_keys_nodup_aux {α : Type} (inserts : List (Str × α)) :
    ∀ m : List (Str × α), (dictKeys m).Nodup →
      (dictKeys (inserts.foldl (fun m kv => dictInsert m kv.1 kv.2) m)).Nodup := by
  induction inserts with
  | nil => intro m h; exact h
  | cons kv rest ih =>
    intro m h
    exact ih _ (dictKeys_nodup_dictInsert kv.1 kv.2 h)

theorem buildDict_mem_aux {α : Type} (inserts : List (Str × α)) :
    ∀ (m : List (Str × α)) (u : Str),
      (u ∈ dictKeys (inserts.foldl (fun m kv => dictInsert m kv.1 kv.2) m) ↔
        u ∈ dictKeys m ∨ u ∈ inserts.map Prod.fst) := by
  induction inserts with
  | nil =>
    intro m u
    simp only [List.foldl_nil, List.map_nil, List.not_mem_nil, or_false]
  | cons kv rest ih =>
    intro m u
    simp only [List.foldl_cons, List.map_cons, List.mem_cons]
    rw [ih, mem_dictKeys_dictInsert]
    tauto

/-- Lexicographic comparison of strings by code point, embedding the
comparison Python's `sorted` uses on `str`. -/
def charsLe : Str → Str → Bool
  | [], _ => true
  | _ :: _, [] => false
  | a :: as, b :: bs => if a = b then charsLe as bs else decide (a.toNat < b.toNat)

theorem char_toNat_inj {a b : Char} (h : a.toNat = b.toNat) : a = b := by
  apply Char.ext
  apply UInt32.ext
  exact h

theorem charsLe_total : ∀ a b : Str, charsLe a b = true ∨ charsLe b a = true := by
  intro a
  induction a with
  | nil => intro b; exact Or.inl rfl
  | cons x xs ih =>
    intro b
    cases b with
    | nil => exact Or.inr rfl
    | cons y ys =>
      by_cases hxy : x = y
      · subst hxy
        cases ih ys with
        | inl h => exact Or.inl (by simp [charsLe, h])
        | inr h => exact Or.inr (by simp [charsLe, h])
      · have hne : x.toNat ≠ y.toNat := fun hc => hxy (char_toNat_inj hc)
        cases Nat.lt_or_ge x.toNat y.toNat with
        | inl h => exact Or.inl (by simp [charsLe, hxy, h])
        | inr h =>
          have h2 : y.toNat < x.toNat := lt_of_le_of_ne h (Ne.symm hne)
          exact Or.inr (by simp [charsLe, Ne.symm hxy, h2])

theorem charsLe_trans : ∀ a b c : Str,
    charsLe a b = true → charsLe b c = true → charsLe a c = true := by
  intro a
  induction a with
  | nil => intro b c _ _; rfl
  | cons x xs ih =>
    intro b c hab hbc
    cases b with
    | nil => simp [charsLe] at hab
    | cons y ys =>
      cases c with
      | nil => simp [charsLe] at hbc
      | cons z zs =>
        by_cases hxy : x = y
        · subst hxy
          simp only [charsLe, if_true] at hab
          by_cases hyz : x = z
          · subst hyz
            simp only [charsLe, if_true] at hbc ⊢
            exact ih ys zs (by simpa using hab) (by simpa using hbc)
          · simp only [charsLe, hyz, if_false, if_true] at hbc ⊢
            simpa using hbc
        · simp only [charsLe, hxy, if_false, decide_eq_true_eq] at hab
          by_cases hyz : y = z
          · subst hyz
            simp [charsLe, hxy, hab]
          · simp only [charsLe, hyz, if_false, decide_eq_true_eq] at hbc
            have hxz : x.toNat < z.toNat := Nat.lt_trans hab hbc
            have hne : x ≠ z := fun hc => by
              subst hc
              exact Nat.lt_irrefl _ hxz
            simp [charsLe, hne, hxz]

/-- Embeds `all_repos_list = sorted(list(all_repos.keys()))`
(src/trufflehub.py line 444): the clone URLs of the final dict, sorted
lexicographically. -/
def workSet {α : Type} (d : List (Str × α)) : List Str :=
  (dictKeys d).mergeSort charsLe

/-- Claim C4: however the discovery sources interleave (any sequence of
URL-keyed insertions), the final WorkSet contains no clone URL twice, is
sorted lexicographically by URL, and consists exactly of the inserted
URLs. -/
theorem workSet_nodup_sorted {α : Type} (inserts : List (Str × α)) :
    (workSet (buildDict inserts)).Nodup
    ∧ (workSet (buildDict inserts)).Pairwise (fun a b => charsLe a b = true)
    ∧ ∀ u, u ∈ workSet (buildDict inserts) ↔ u ∈ inserts.map Prod.fst := by
  have hperm : (workSet (buildDict inserts)).Perm (dictKeys (buildDict inserts)) :=
    List.mergeSort_perm _ _
  refine ⟨?_, ?_, ?_⟩
  · refine hperm.nodup_iff.mpr (buildDict_keys_nodup_aux inserts [] ?_)
    simp only [dictKeys, List.map_nil, List.nodup_nil]
  · exact List.sorted_mergeSort (fun a b c => charsLe_trans a b c)
      (fun a b => by simpa using charsLe_total a b) (dictKeys (buildDict inserts))
  · intro u
    rw [hperm.mem_iff]
    have := buildDict_mem_aux inserts [] u
    simpa only [dictKeys, List.map_nil, List.not_mem_nil, false_or] using this

theorem dictFind_map_replace {α : Type} (m : List (Str × α)) (k : Str) (v : α)
    (hk : k ∈ dictKeys m) :
    dictFind (m.map fun kv => if kv.1 = k then (k, v) else kv) k = some v := by
  induction m with
  | nil => exact absurd hk (by simp only [dictKeys, List.map_nil, List.not_mem_nil, not_false_iff])
  | cons kv rest ih =>
    by_cases h1 : kv.1 = k
    · rw [List.map_cons, if_pos h1]
      simp only [dictFind, if_true]
    · have hk2 : k ∈ dictKeys rest := by
        rcases (by simpa only [dictKeys, List.map_cons, List.mem_cons] using hk : k = kv.1 ∨ k ∈ dictKeys rest) with h | h
        · exact absurd h.symm h1
        · exact h
      rw [List.map_cons, if_neg h1]
      simp only [dictFind]
      rw [if_neg h1]
      exact ih hk2

theorem dictFind_append_self {α : Type} (m : List (Str × α)) (k : Str) (v : α)
    (hk : k ∉ dictKeys m) : dictFind (m ++ [(k, v)]) k = some v := by
  induction m with
  | nil =>
    simp only [List.nil_append, dictFind, if_true]
  | cons kv rest ih =>
    have h1 : kv.1 ≠ k := fun hc => hk (by
      simp only [dictKeys, List.map_cons, List.mem_cons]
      exact Or.inl hc.symm)
    have hk2 : k ∉ dictKeys rest := fun hc => hk (by
      simp only [dictKeys, List.map_cons, List.mem_cons]
      exact Or.inr hc)
    rw [List.cons_append]
    simp only [dictFind]
    rw [if_neg h1]
    exact ih hk2

theorem dictFind_dictInsert_self {α : Type} (m : List (Str × α)) (k : Str) (v : α) :
    dictFind (dictInsert m k v) k = some v := by
  by_cases hk : k ∈ dictKeys m
  · rw [dictInsert, if_pos hk]
    exact dictFind_map_replace m k v hk
  · rw [dictInsert, if_neg hk]
    exact dictFind_append_self m k v hk

/-- Claim C8 counterexample: two discovery writes for the same clone URL
with different metadata — the later write overrides the earlier captured
value, so a subsequent lookup returns the later value, contradicting
first-writer-wins. -/
theorem later_source_overrides_cex :
    dictFind (buildDict
        [(str "https://github.com/o/r.git", (⟨false, false, false, false⟩ : Metadata)),
         (str "https://github.com/o/r.git", (⟨true, false, false, false⟩ : Metadata))])
      (str "https://github.com/o/r.git") = some ⟨true, false, false, false⟩
    ∧ (⟨true, false, false, false⟩ : Metadata) ≠ ⟨false, false, false, false⟩ := by
  constructor
  · decide
  · decide

/-- Claim C8 amended: a later discovery write for an already-seen clone URL
overrides the captured value (last writer wins): after any insertion
sequence ending with `(u, v)`, a lookup for `u` returns `v`. -/
theorem later_source_overrides (inserts : List (Str × Metadata)) (u : Str) (v : Metadata) :
    dictFind (buildDict (inserts ++ [(u, v)])) u = some v := by
  have : buildDict (inserts ++ [(u, v)]) = dictInsert (buildDict inserts) u v := by
    simp [buildDict, List.foldl_append]
  rw [this]
  exact dictFind_dictInsert_self _ u v

/-- Embeds `get_repo_metadata` (src/trufflehub.py lines 130-155).  The body
of the `try` block — URL parsing, the single-repository HTTP request, the
status-code test and the JSON field extraction — is an external effect,
modelled by the oracle `fetch : Str → Option Metadata` (`none` covers a
non-200 response, a transport error and any swallowed exception; `some` a
200 response with its four booleans).  Returns the result, the cache after
the call, and how many underlying lookup attempts were performed. -/
def get_repo_metadata (fetch : Str → Option Metadata)
    (cache : List (Str × Metadata)) (repo_url : Str) :
    Option Metadata × List (Str × Metadata) × Nat :=
  match dictFind cache repo_url with
  | some m => (some m, cache, 0)
  | none =>
    match fetch repo_url with
    | some metadata => (some metadata, dictInsert cache repo_url metadata, 1)
    | none => (none, cache, 1)

/-- Claim C5: after a metadata lookup for a URL succeeds, a second lookup
for the same URL is served from the cache: it performs zero underlying
network calls — whatever the network would now answer — and returns the
same cached four-boolean value, leaving the cache unchanged. -/
theorem metadata_cache_idempotent (fetch fetch2 : Str → Option Metadata)
    (cache : List (Str × Metadata)) (url : Str) (m : Metadata)
    (h : (get_repo_metadata fetch cache url).1 = some m) :
    get_repo_metadata fetch2 (get_repo_metadata fetch cache url).2.1 url =
      (some m, (get_repo_metadata fetch cache url).2.1, 0) := by
  cases hc : dictFind cache url with
  | some m0 =>
    have heq : get_repo_metadata fetch cache url = (some m0, cache, 0) := by
      simp [get_repo_metadata, hc]
    rw [heq] at h ⊢
    obtain rfl : m0 = m := by
      simpa using h
    simp [get_repo_metadata, hc]
  | none =>
    cases hf : fetch url with
    | some m1 =>
      have heq : get_repo_metadata fetch cache url = (some m1, dictInsert cache url m1, 1) := by
        simp [get_repo_metadata, hc, hf]
      rw [heq] at h ⊢
      obtain rfl : m1 = m := by
        simpa using h
      simp [get_repo_metadata, dictFind_dictInsert_self]
    | none =>
      have heq : get_repo_metadata fetch cache url = (none, cache, 1) := by
        simp [get_repo_metadata, hc, hf]
      rw [heq] at h
      simp at h

/-- Concrete instance for `metadata_cache_idempotent`: empty cache, a
network answering the URL — the second lookup returns the cached value with
zero underlying calls even against a dead network. -/
theorem metadata_cache_idempotent_witness :
    get_repo_metadata (fun _ => none)
        (get_repo_metadata (fun _ => some ⟨false, true, false, false⟩) []
          (str "https://github.com/o/r.git")).2.1
        (str "https://github.com/o/r.git") =
      (some ⟨false, true, false, false⟩,
        (get_repo_metadata (fun _ => some ⟨false, true, false, false⟩) []
          (str "https://github.com/o/r.git")).2.1, 0) :=
  metadata_cache_idempotent (fun _ => some ⟨false, true, false, false⟩) (fun _ => none)
    [] (str "https://github.com/o/r.git") ⟨false, true, false, false⟩ (by decide)

/-- Claim C6: a metadata lookup that misses the cache and whose underlying
request does not succeed returns `none` (absent, not an error) after one
underlying attempt and leaves the cache unchanged — the absence is not
cached — so any later lookup for the same URL performs the underlying call
again (one more attempt, whatever the network answers). -/
theorem metadata_miss_not_cached (fetch : Str → Option Metadata)
    (cache : List (Str × Metadata)) (url : Str)
    (hmiss : dictFind cache url = none) (hf : fetch url = none) :
    get_repo_metadata fetch cache url = (none, cache, 1)
    ∧ ∀ fetch2 : Str → Option Metadata,
        (get_repo_metadata fetch2 cache url).2.2 = 1 := by
  constructor
  · simp [get_repo_metadata, hmiss, hf]
  · intro fetch2
    cases hf2 : fetch2 url with
    | some m => simp [get_repo_metadata, hmiss, hf2]
    | none => simp [get_repo_metadata, hmiss, hf2]

/-- Concrete instance for `metadata_miss_not_cached`: empty cache and a
failing request — absent result, cache still empty, and every retry
performs the underlying call. -/
theorem metadata_miss_not_cached_witness :
    get_repo_metadata (fun _ => none) [] (str "https://github.com/o/r.git")
        = (none, [], 1)
    ∧ ∀ fetch2 : Str → Option Metadata,
        (get_repo_metadata fetch2 [] (str "https://github.com/o/r.git")).2.2 = 1 :=
  metadata_miss_not_cached (fun _ => none) [] (str "https://github.com/o/r.git") rfl rfl

/-- The statements of the program that matter to the cleanup contract: a
call to `cleanup()`, a `sys.exit(...)` (raises `SystemExit`: nothing later
in the same body runs, and the interpreter then runs the `atexit`
handlers), and anything else. -/
inductive PyStmt where
  | callCleanup
  | sysExit (code : Nat)
  | other
deriving DecidableEq, Repr

/-- `atexit.register(cleanup)` (src/trufflehub.py line 100): the handler
list the interpreter runs once at process exit, on every exit path. -/
def atexitHandlers : List PyStmt := [PyStmt.callCleanup]

/-- How many `cleanup()` calls a statement sequence makes before control
leaves it: execution stops at the first `sys.exit`. -/
def cleanupCallsIn : List PyStmt → Nat
  | [] => 0
  | PyStmt.callCleanup :: rest => cleanupCallsIn rest + 1
  | PyStmt.sysExit _ :: _ => 0
  | PyStmt.other :: rest => cleanupCallsIn rest

/-- Total executions of the cleanup routine over a process lifetime with
body `body`: the body's own calls plus the registered atexit handlers,
which run at interpreter exit whether it is reached normally or through
`sys.exit`. -/
def cleanupRunsOf (body : List PyStmt) : Nat :=
  cleanupCallsIn body + cleanupCallsIn atexitHandlers

/-- The three exit paths the claim names. -/
inductive ExitPath where
  | normal
  | interruptSignal
  | fatalEarly
deriving DecidableEq, Repr

/-- The cleanup-relevant trace of each exit path, read off `main` and
`signal_handler` in src/trufflehub.py:
* normal completion — the scan loop finishes and `main` calls `cleanup()`
  explicitly (line 458), then the interpreter exits;
* interrupt signal — `signal_handler` (lines 88-96) calls `cleanup()` and
  then `sys.exit(130)`;
* fatal early exit — no target was specified and `main` calls `sys.exit(1)`
  (line 393) with no explicit `cleanup()` call. -/
def pathBody : ExitPath → List PyStmt
  | ExitPath.normal => [PyStmt.other, PyStmt.callCleanup]
  | ExitPath.interruptSignal => [PyStmt.callCleanup, PyStmt.sysExit 130]
  | ExitPath.fatalEarly => [PyStmt.sysExit 1]

/-- Executions of the cleanup routine over the whole process lifetime for
each exit path. -/
def cleanupRuns (p : ExitPath) : Nat := cleanupRunsOf (pathBody p)

/-- Claim C1 counterexample: on the normal-completion exit path the cleanup
routine runs twice — once via the explicit `cleanup()` call at the end of
`main` (line 458) and once more via the `atexit` handler registered at line
100 — not exactly once. -/
theorem cleanup_twice_on_normal_cex :
    cleanupRuns ExitPath.normal = 2 ∧ cleanupRuns ExitPath.normal ≠ 1 := by
  decide

/-- Claim C1 amended: on every exit path the cleanup routine runs at least
once and at most twice — twice on normal completion and on an interrupt
signal (explicit call, then the atexit handler fired by the exit), once on
fatal early exit (atexit handler only) — never zero times. -/
theorem cleanup_runs_bounds (p : ExitPath) :
    1 ≤ cleanupRuns p ∧ cleanupRuns p ≤ 2 := by
  cases p <;> decide

/-- `TEMP_DIRS` (src/trufflehub.py line 17): the registry of temporary
directories awaiting cleanup.  The module initialises it to the empty list,
and no statement of the file appends to it or rebinds it; it is read only
by `cleanup`'s removal loop (lines 76-81). -/
def TEMP_DIRS : List Str := []

/-- The filesystem effect of `cleanup`'s removal loop (src/trufflehub.py
lines 76-81): every registered directory that exists is removed
(`shutil.rmtree`, failures swallowed), everything else is untouched. -/
def cleanupRemoveTempDirs (fs : List Str) : List Str :=
  fs.filter (fun d => !(TEMP_DIRS.contains d))

/-- Claim C10: the temporary-resource registry is empty for the whole
process lifetime, so cleanup's directory-removal loop removes nothing from
any filesystem state — the guaranteed-release obligation holds vacuously. -/
theorem temp_registry_empty_removal_noop :
    TEMP_DIRS = [] ∧ ∀ fs : List Str, cleanupRemoveTempDirs fs = fs := by
  refine ⟨rfl, ?_⟩
  intro fs
  induction fs with
  | nil => rfl
  | cons d rest ih =>
    simp only [cleanupRemoveTempDirs, TEMP_DIRS, List.filter_cons] at ih ⊢
    simp [ih]

/-- The whitespace characters Python's `str.strip()` removes (ASCII
range). -/
def isPyWs (c : Char) : Bool :=
  c == ' ' || c == '\t' || c == '\n' || c == '\r' || c == '\x0b' || c == '\x0c'

/-- Embeds Python `s.strip()`. -/
def pyStrip (s : Str) : Str :=
  ((s.dropWhile isPyWs).reverse.dropWhile isPyWs).reverse

/-- Embeds Python `s.split(sep)` for a one-character separator: fields
between separator occurrences, empty fields kept. -/
def splitOnChar (sep : Char) : Str → List Str
  | [] => [[]]
  | c :: cs =>
    if c = sep then [] :: splitOnChar sep cs
    else
      match splitOnChar sep cs with
      | [] => [[c]]
      | h :: t => (c :: h) :: t

/-- Embeds `findings = [line for line in result["output"].strip().split("\n") if line]`
(src/trufflehub.py line 320). -/
def splitFindings (out : Str) : List Str :=
  (splitOnChar '\n' (pyStrip out)).filter (fun l => !l.isEmpty)

/-- Embeds Python `url.rstrip("/")`. -/
def rstripSlash (s : Str) : Str :=
  (s.reverse.dropWhile (fun c => c == '/')).reverse

/-- Embeds Python `s.replace(old, new)` — every non-overlapping occurrence,
scanned left to right — with the remaining length as fuel for termination.
Only used with the non-empty pattern `".git"`; an empty pattern is treated
as no occurrence. -/
def replaceFuel (pat rep : Str) : Nat → Str → Str
  | 0, s => s
  | _ + 1, [] => []
  | fuel + 1, c :: cs =>
    if charsStartWith pat (c :: cs) && !pat.isEmpty then
      rep ++ replaceFuel pat rep fuel ((c :: cs).drop pat.length)
    else c :: replaceFuel pat rep fuel cs

/-- Embeds Python `s.replace(old, new)`. -/
def replaceAll (pat rep s : Str) : Str := replaceFuel pat rep s.length s

/-- Embeds `repo_url.rstrip("/").split("/")[-1].replace(".git", "")`
(src/trufflehub.py line 298). -/
def repoNameOf (url : Str) : Str :=
  replaceAll (str ".git") [] ((splitOnChar '/' (rstripSlash url)).getLastD [])

/-- Embeds `repo_url.rstrip("/").split("/")[-2]` (src/trufflehub.py line
299).  Python raises `IndexError` on a URL with fewer than two components;
no claim exercises that path, and it is totalised to `[]`. -/
def orgOrUserOf (url : Str) : Str :=
  let parts := splitOnChar '/' (rstripSlash url)
  parts.getD (parts.length - 2) []

/-- The status badges `format_repo_type` can emit (src/trufflehub.py lines
157-181); colour codes are display-only and not modelled.  `priv` spells
the `private` badge. -/
inductive Badge where
  | failed
  | unknown
  | priv
  | fork
  | origin
  | archived
  | disabled
deriving DecidableEq, Repr

/-- Embeds `format_repo_type` (src/trufflehub.py lines 157-181) as the
badge list in emission order: a `failed` badge first when requested;
`unknown` (and nothing else) when metadata is absent; otherwise the badges
the four booleans select. -/
def format_repo_type (metadata : Option Metadata) (failed : Bool) : List Badge :=
  (if failed then [Badge.failed] else []) ++
    match metadata with
    | none => [Badge.unknown]
    | some m =>
      (if m.priv then [Badge.priv] else []) ++
        (if m.fork then [Badge.fork] else [Badge.origin]) ++
        (if m.archived then [Badge.archived] else []) ++
        (if m.disabled then [Badge.disabled] else [])

/-- The result dict of `run_command` (src/trufflehub.py lines 123-128):
`success = false` exactly when the subprocess exited non-zero or the
invocation failed, in which case `output` is empty. -/
structure RunResult where
  success : Bool
  output : Str
deriving DecidableEq, Repr

/-- Embeds Python `"\n".join(lines)`. -/
def joinLines (lines : List Str) : Str := List.intercalate (str "\n") lines

/-- `os.path.join(output_dir, f"{org_or_user}_{repo_name}_critical.json")`
(src/trufflehub.py line 336), with the join modelled as a `/`-join. -/
def criticalFileName (dir url : Str) : Str :=
  dir ++ str "/" ++ orgOrUserOf url ++ str "_" ++ repoNameOf url ++ str "_critical.json"

/-- `os.path.join(output_dir, f"{org_or_user}_{repo_name}_medium.json")`
(src/trufflehub.py line 340). -/
def mediumFileName (dir url : Str) : Str :=
  dir ++ str "/" ++ orgOrUserOf url ++ str "_" ++ repoNameOf url ++ str "_medium.json"

/-- What one `scan_with_trufflehog` call (src/trufflehub.py lines 294-363)
does, as observable data: whether it was an interrupt no-op, the badges of
its progress line, the two finding buckets, the files written (name and
content, in write order), and whether a progress line was printed. -/
structure ScanOutcome where
  skipped : Bool
  badges : List Badge
  critical_findings : List Str
  medium_findings : List Str
  writes : List (Str × Str)
  printed : Bool
deriving DecidableEq, Repr

/-- Embeds `scan_with_trufflehog` (src/trufflehub.py lines 294-363).
`parse` is the JSON-decoder oracle, `metadata` the result of the
`get_repo_metadata` consult, `res` the `run_command` result of the
trufflehog subprocess, `output_dir` the `-output` option (`none` when
unset) and `silent` the `-silent` flag.  On success the output lines are
bucketed and, when an output directory is configured and the output was
non-empty, each non-empty bucket is written to its file (mode `"w"`); on
failure nothing is recorded or written and a progress line with the failed
badge is printed unconditionally. -/
def scan_with_trufflehog (parse : Str → Option Finding) (interrupted : Bool)
    (metadata : Option Metadata) (res : RunResult) (output_dir : Option Str)
    (silent : Bool) (repo_url : Str) : ScanOutcome :=
  if interrupted then ⟨true, [], [], [], [], false⟩
  else
    let repo_name := repoNameOf repo_url
    let org_or_user := orgOrUserOf repo_url
    if res.success then
      let buckets :=
        if !res.output.isEmpty then bucketize parse (splitFindings res.output)
        else ([], [])
      let writes :=
        match output_dir with
        | some dir =>
          if !res.output.isEmpty then
            (if !buckets.1.isEmpty then
              [(dir ++ str "/" ++ org_or_user ++ str "_" ++ repo_name ++ str "_critical.json",
                joinLines buckets.1)]
             else []) ++
            (if !buckets.2.isEmpty then
              [(dir ++ str "/" ++ org_or_user ++ str "_" ++ repo_name ++ str "_medium.json",
                joinLines buckets.2)]
             else [])
          else []
        | none => []
      let printed :=
        if buckets.1.length + buckets.2.length > 0 then
          !silent || decide (buckets.1.length > 0) || decide (buckets.2.length > 0)
        else !silent
      ⟨false, format_repo_type metadata false, buckets.1, buckets.2, writes, printed⟩
    else ⟨false, format_repo_type metadata true, [], [], [], true⟩

/-- Embeds the scan loop of `main` (src/trufflehub.py lines 451-454): the
WorkSet is iterated in order, the interrupt flag is checked at each
iteration boundary, and each member is scanned once.  `metaOf` and `runOf`
give each repository's cached-metadata view and subprocess result;
`scan_with_trufflehog` never modifies the interrupt flag, which is
therefore constant along the loop. -/
def scanLoop (parse : Str → Option Finding) (metaOf : Str → Option Metadata)
    (runOf : Str → RunResult) (output_dir : Option Str) (silent : Bool)
    (interrupted : Bool) : List Str → List ScanOutcome
  | [] => []
  | url :: rest =>
    if interrupted then []
    else
      scan_with_trufflehog parse interrupted (metaOf url) (runOf url) output_dir silent url ::
        scanLoop parse metaOf runOf output_dir silent interrupted rest

theorem scanLoop_length (parse : Str → Option Finding) (metaOf : Str → Option Metadata)
    (runOf : Str → RunResult) (output_dir : Option Str) (silent : Bool)
    (repos : List Str) :
    (scanLoop parse metaOf runOf output_dir silent false repos).length = repos.length := by
  induction repos with
  | nil => rfl
  | cons u rest ih => simp [scanLoop, ih]

/-- Claim C7: when the scanner invocation for a repository fails, that
repository's progress line is printed and opens with the failed badge, no
output files are written, no findings are recorded — and the scan loop
still processes every member of the WorkSet around it (the failure aborts
nothing). -/
theorem scan_failure_isolated (parse : Str → Option Finding)
    (metaOf : Str → Option Metadata) (runOf : Str → RunResult)
    (output_dir : Option Str) (silent : Bool) (url : Str)
    (repos1 repos2 : List Str)
    (hfail : (runOf url).success = false) :
    (Badge.failed ∈ (scan_with_trufflehog parse false (metaOf url) (runOf url) output_dir silent url).badges
      ∧ (scan_with_trufflehog parse false (metaOf url) (runOf url) output_dir silent url).writes = []
      ∧ (scan_with_trufflehog parse false (metaOf url) (runOf url) output_dir silent url).critical_findings = []
      ∧ (scan_with_trufflehog parse false (metaOf url) (runOf url) output_dir silent url).medium_findings = []
      ∧ (scan_with_trufflehog parse false (metaOf url) (runOf url) output_dir silent url).printed = true)
    ∧ (scanLoop parse metaOf runOf output_dir silent false (repos1 ++ url :: repos2)).length
        = repos1.length + 1 + repos2.length := by
  have hscan : scan_with_trufflehog parse false (metaOf url) (runOf url) output_dir silent url
      = ⟨false, format_repo_type (metaOf url) true, [], [], [], true⟩ := by
    simp [scan_with_trufflehog, hfail]
  refine ⟨?_, ?_⟩
  · rw [hscan]
    refine ⟨?_, rfl, rfl, rfl, rfl⟩
    simp [format_repo_type]
  · rw [scanLoop_length]
    simp only [List.length_append, List.length_cons]
    omega

/-- Concrete instance for `scan_failure_isolated`: a two-repository WorkSet
whose first scan fails — failed badge, nothing written or recorded, and
both repositories still yield an outcome. -/
theorem scan_failure_isolated_witness :
    (Badge.failed ∈ (scan_with_trufflehog (fun _ => none) false none ⟨false, []⟩
        (some (str "out")) false (str "https://github.com/o/r")).badges
      ∧ (scan_with_trufflehog (fun _ => none) false none ⟨false, []⟩
          (some (str "out")) false (str "https://github.com/o/r")).writes = []
      ∧ (scan_with_trufflehog (fun _ => none) false none ⟨false, []⟩
          (some (str "out")) false (str "https://github.com/o/r")).critical_findings = []
      ∧ (scan_with_trufflehog (fun _ => none) false none ⟨false, []⟩
          (some (str "out")) false (str "https://github.com/o/r")).medium_findings = []
      ∧ (scan_with_trufflehog (fun _ => none) false none ⟨false, []⟩
          (some (str "out")) false (str "https://github.com/o/r")).printed = true)
    ∧ (scanLoop (fun _ => none) (fun _ => none) (fun _ => ⟨false, []⟩)
        (some (str "out")) false false
        [str "https://github.com/o/r", str "https://github.com/o/x"]).length = 2 :=
  scan_failure_isolated (fun _ => none) (fun _ => none) (fun _ => ⟨false, []⟩)
    (some (str "out")) false (str "https://github.com/o/r")
    [] [str "https://github.com/o/x"] rfl

/-- The observable filesystem: an association of file names to contents.
Python `open(path, "w")` truncates, so one write is one dict assignment;
`applyWrites` performs a write list in order. -/
def applyWrites (fs : List (Str × Str)) (ws : List (Str × Str)) : List (Str × Str) :=
  ws.foldl (fun acc w => dictInsert acc w.1 w.2) fs

theorem dictFind_map_replace_ne {α : Type} (m : List (Str × α)) (k k' : Str) (v : α)
    (hne : k' ≠ k) :
    dictFind (m.map fun kv => if kv.1 = k then (k, v) else kv) k' = dictFind m k' := by
  induction m with
  | nil => rfl
  | cons kv rest ih =>
    by_cases h1 : kv.1 = k
    · rw [List.map_cons, if_pos h1]
      simp only [dictFind]
      have hkk : ¬ ((k, v).1 = k') := fun hc => hne hc.symm
      have hkv : ¬ (kv.1 = k') := fun hc => hne (h1.symm.trans hc).symm
      rw [if_neg hkk, if_neg hkv]
      exact ih
    · rw [List.map_cons, if_neg h1]
      simp only [dictFind]
      by_cases h2 : kv.1 = k'
      · rw [if_pos h2, if_pos h2]
      · rw [if_neg h2, if_neg h2]
        exact ih

theorem dictFind_append_ne {α : Type} (m : List (Str × α)) (k k' : Str) (v : α)
    (hne : k' ≠ k) :
    dictFind (m ++ [(k, v)]) k' = dictFind m k' := by
  induction m with
  | nil =>
    simp only [List.nil_append, dictFind]
    have hkk : ¬ ((k, v).1 = k') := fun hc => hne hc.symm
    rw [if_neg hkk]
  | cons kv rest ih =>
    rw [List.cons_append]
    simp only [dictFind]
    by_cases h2 : kv.1 = k'
    · rw [if_pos h2, if_pos h2]
    · rw [if_neg h2, if_neg h2]
      exact ih

theorem dictFind_dictInsert_ne {α : Type} (m : List (Str × α)) (k k' : Str) (v : α)
    (hne : k' ≠ k) : dictFind (dictInsert m k v) k' = dictFind m k' := by
  by_cases hk : k ∈ dictKeys m
  · rw [dictInsert, if_pos hk]
    exact dictFind_map_replace_ne m k k' v hne
  · rw [dictInsert, if_neg hk]
    exact dictFind_append_ne m k k' v hne

theorem criticalFileName_ne_mediumFileName (dir url : Str) :
    criticalFileName dir url ≠ mediumFileName dir url := by
  intro h
  unfold criticalFileName mediumFileName at h
  have h2 := List.append_cancel_left h
  exact absurd h2 (by decide)

/-- Claim C9: with an output directory configured and a successful scanner
run, the critical file is among the writes exactly when the critical bucket
is non-empty and the medium file exactly when the medium bucket is
non-empty; each written file's content is exactly the newline-joined raw
lines of its bucket; and applying the writes to any prior filesystem
replaces a written file's previous content outright (no append, no merge)
while leaving an unwritten file untouched. -/
theorem output_files_exact (parse : Str → Option Finding)
    (metadata : Option Metadata) (res : RunResult) (dir : Str) (silent : Bool)
    (url : Str) (hs : res.success = true) :
    let o := scan_with_trufflehog parse false metadata res (some dir) silent url
    (o.writes =
      (if o.critical_findings.isEmpty then []
       else [(criticalFileName dir url, joinLines o.critical_findings)]) ++
      (if o.medium_findings.isEmpty then []
       else [(mediumFileName dir url, joinLines o.medium_findings)]))
    ∧ ∀ fs : List (Str × Str),
        dictFind (applyWrites fs o.writes) (criticalFileName dir url) =
          (if o.critical_findings.isEmpty then dictFind fs (criticalFileName dir url)
           else some (joinLines o.critical_findings))
        ∧ dictFind (applyWrites fs o.writes) (mediumFileName dir url) =
          (if o.medium_findings.isEmpty then dictFind fs (mediumFileName dir url)
           else some (joinLines o.medium_findings)) := by
  intro o
  have ho : o = scan_with_trufflehog parse false metadata res (some dir) silent url := rfl
  have hne := criticalFileName_ne_mediumFileName dir url
  by_cases hout : res.output.isEmpty
  · have hoeq : o = ⟨false, format_repo_type metadata false, [], [], [], !silent⟩ := by
      rw [ho]
      simp [scan_with_trufflehog, hs, hout]
    rw [hoeq]
    simp [applyWrites]
  · have hout2 : res.output.isEmpty = false := by
      simpa using hout
    have hoeq : o = ⟨false, format_repo_type metadata false,
        (bucketize parse (splitFindings res.output)).1,
        (bucketize parse (splitFindings res.output)).2,
        (if !(bucketize parse (splitFindings res.output)).1.isEmpty then
          [(criticalFileName dir url, joinLines (bucketize parse (splitFindings res.output)).1)]
         else []) ++
        (if !(bucketize parse (splitFindings res.output)).2.isEmpty then
          [(mediumFileName dir url, joinLines (bucketize parse (splitFindings res.output)).2)]
         else []),
        (if (bucketize parse (splitFindings res.output)).1.length
              + (bucketize parse (splitFindings res.output)).2.length > 0 then
          !silent || decide ((bucketize parse (splitFindings res.output)).1.length > 0)
            || decide ((bucketize parse (splitFindings res.output)).2.length > 0)
         else !silent)⟩ := by
      rw [ho]
      simp only [scan_with_trufflehog, hs, hout2, criticalFileName, mediumFileName,
        Bool.false_eq_true, if_false, if_true, Bool.not_false, Bool.not_true]
    rw [hoeq]
    by_cases h1 : (bucketize parse (splitFindings res.output)).1.isEmpty
    · by_cases h2 : (bucketize parse (splitFindings res.output)).2.isEmpty
      · simp only [h1, h2, Bool.not_true, Bool.false_eq_true, if_false, if_true,
          List.nil_append]
        refine ⟨trivial, ?_⟩
        intro fs
        exact ⟨rfl, rfl⟩
      · have h2f : (bucketize parse (splitFindings res.output)).2.isEmpty = false := by
          simpa using h2
        simp only [h1, h2f, Bool.not_true, Bool.not_false, Bool.false_eq_true, if_false,
          if_true, List.nil_append]
        refine ⟨trivial, ?_⟩
        intro fs
        constructor
        · show dictFind (dictInsert fs (mediumFileName dir url) _) (criticalFileName dir url) = _
          rw [dictFind_dictInsert_ne _ _ _ _ hne]
        · show dictFind (dictInsert fs (mediumFileName dir url) _) (mediumFileName dir url) = _
          rw [dictFind_dictInsert_self]
    · have h1f : (bucketize parse (splitFindings res.output)).1.isEmpty = false := by
        simpa using h1
      by_cases h2 : (bucketize parse (splitFindings res.output)).2.isEmpty
      · simp only [h1f, h2, Bool.not_true, Bool.not_false, Bool.false_eq_true, if_false,
          if_true, List.append_nil]
        refine ⟨trivial, ?_⟩
        intro fs
        constructor
        · show dictFind (dictInsert fs (criticalFileName dir url) _) (criticalFileName dir url) = _
          rw [dictFind_dictInsert_self]
        · show dictFind (dictInsert fs (criticalFileName dir url) _) (mediumFileName dir url) = _
          rw [dictFind_dictInsert_ne _ _ _ _ (Ne.symm hne)]
      · have h2f : (bucketize parse (splitFindings res.output)).2.isEmpty = false := by
          simpa using h2
        simp only [h1f, h2f, Bool.not_false, Bool.false_eq_true, if_false, if_true]
        refine ⟨trivial, ?_⟩
        intro fs
        constructor
        · show dictFind (dictInsert (dictInsert fs (criticalFileName dir url) _)
              (mediumFileName dir url) _) (criticalFileName dir url) = _
          rw [dictFind_dictInsert_ne _ _ _ _ hne, dictFind_dictInsert_self]
        · show dictFind (dictInsert (dictInsert fs (criticalFileName dir url) _)
              (mediumFileName dir url) _) (mediumFileName dir url) = _
          rw [dictFind_dictInsert_self]

/-- Concrete instance for `output_files_exact`: a successful run whose
output holds one decodable medium-labelled line and one undecodable line —
each bucket's file is written with exactly its newline-joined lines and
overwrites any prior content. -/
theorem output_files_exact_witness :
    (RunResult.mk true (str "d\nx")).success = true
    ∧ (let o := scan_with_trufflehog
          (fun l => if l = str "d" then some ⟨str "demo", []⟩ else none) false none
          (RunResult.mk true (str "d\nx")) (some (str "out")) false
          (str "https://github.com/org/repo.git")
       (o.writes =
        (if o.critical_findings.isEmpty then []
         else [(criticalFileName (str "out") (str "https://github.com/org/repo.git"),
                joinLines o.critical_findings)]) ++
        (if o.medium_findings.isEmpty then []
         else [(mediumFileName (str "out") (str "https://github.com/org/repo.git"),
                joinLines o.medium_findings)]))
       ∧ ∀ fs : List (Str × Str),
          dictFind (applyWrites fs o.writes)
              (criticalFileName (str "out") (str "https://github.com/org/repo.git")) =
            (if o.critical_findings.isEmpty then
              dictFind fs (criticalFileName (str "out") (str "https://github.com/org/repo.git"))
             else some (joinLines o.critical_findings))
          ∧ dictFind (applyWrites fs o.writes)
              (mediumFileName (str "out") (str "https://github.com/org/repo.git")) =
            (if o.medium_findings.isEmpty then
              dictFind fs (mediumFileName (str "out") (str "https://github.com/org/repo.git"))
             else some (joinLines o.medium_findings))) :=
  ⟨rfl, output_files_exact
    (fun l => if l = str "d" then some ⟨str "demo", []⟩ else none) none
    (RunResult.mk true (str "d\nx")) (str "out") false
    (str "https://github.com/org/repo.git") rfl⟩

end Trufflehub
